import Mathlib

/-!
Verification development for the gitbrag pull-request collection and
enrichment pipeline.

The Python source under `gitbrag/services/github/` is shallowly embedded:
pure functions become Lean functions, the external world (GitHub REST and
GraphQL responses, the persistent cache) is passed explicitly, exceptions
become explicit outcome/`Except` values, and `asyncio.gather` result
assembly is modelled with an explicit completion order parameter where a
claim speaks about completion order.  Timestamps (`datetime` values) are
modelled as integers (Unix seconds); their comparison order is all the
source uses.
-/

set_option autoImplicit false

/-! ### Error classifier (`pullrequests.py`, `categorize_error`) -/

/-- Exception taxonomy visible to `categorize_error`: `httpx.TimeoutException`,
`httpx.ConnectError`, `httpx.HTTPStatusError` (carrying a status code), and
any other exception. -/
inductive PyError where
  | timeout
  | connectError
  | httpStatus (code : ℕ)
  | other
deriving DecidableEq

/-- Embedding of `categorize_error` (pullrequests.py lines 47-84). -/
def categorize_error : PyError → String
  | .timeout => "transient"
  | .connectError => "transient"
  | .httpStatus code =>
      if code = 401 ∨ code = 403 ∨ code = 404 ∨ code = 422 then "fatal"
      else if code = 429 ∨ code = 500 ∨ code = 502 ∨ code = 503 ∨ code = 504 then "transient"
      else "transient"
  | .other => "transient"

/-- C5: the error classifier is a total deterministic function: HTTP status
401/403/404/422 maps to "fatal"; 429/500/502/503/504 maps to "transient";
every other HTTP status maps to "transient"; timeout and connection errors
map to "transient"; any other exception maps to "transient". -/
theorem categorize_error_total :
    (∀ code : ℕ, (code = 401 ∨ code = 403 ∨ code = 404 ∨ code = 422) →
        categorize_error (.httpStatus code) = "fatal") ∧
    (∀ code : ℕ, (code = 429 ∨ code = 500 ∨ code = 502 ∨ code = 503 ∨ code = 504) →
        categorize_error (.httpStatus code) = "transient") ∧
    (∀ code : ℕ, ¬(code = 401 ∨ code = 403 ∨ code = 404 ∨ code = 422) →
        categorize_error (.httpStatus code) = "transient") ∧
    categorize_error .timeout = "transient" ∧
    categorize_error .connectError = "transient" ∧
    categorize_error .other = "transient" := by
  refine ⟨?_, ?_, ?_, rfl, rfl, rfl⟩
  · intro code h
    simp only [categorize_error, if_pos h]
  · intro code h
    have hne : ¬(code = 401 ∨ code = 403 ∨ code = 404 ∨ code = 422) := by
      rcases h with h | h | h | h | h <;> subst h <;> decide
    simp only [categorize_error, if_neg hne]
    split <;> rfl
  · intro code h
    simp only [categorize_error, if_neg h]
    split <;> rfl

/-- Witness for C5 at concrete inputs: 404 is fatal, 503 is transient,
418 (an uncategorized status) is transient. -/
theorem categorize_error_total_witness :
    categorize_error (.httpStatus 404) = "fatal" ∧
    categorize_error (.httpStatus 503) = "transient" ∧
    categorize_error (.httpStatus 418) = "transient" :=
  ⟨categorize_error_total.1 404 (by decide),
   categorize_error_total.2.1 503 (by decide),
   categorize_error_total.2.2.1 418 (by decide)⟩

/-! ### Star-increase engine (`stargazers.py`, `fetch_repository_star_increase`)

The GraphQL world is modelled as the list of successive responses the API
would return (the cursor of the source is the position in this list); an
edge's `starredAt` is `Option ℤ` (`none` models a missing timestamp, which
the source skips with `continue`).  The persistent cache is an association
list keyed by the `(owner, repo, since, until)` tuple from the cache key
string, newest entry first (`set_cached` prepends, `get_cached` takes the
first match). -/

/-- Lookup in an association-list cache: first entry whose key matches. -/
def cacheLookup {κ ν : Type} [DecidableEq κ] : List (κ × ν) → κ → Option ν
  | [], _ => none
  | (k, v) :: rest, key => if k = key then some v else cacheLookup rest key

/-- Timestamp of `datetime(2008, 1, 1)` (GitHub's launch) as Unix seconds. -/
def githubLaunch : ℤ := 1199145600

/-- One page of the GraphQL stargazers connection: the `starredAt` edges and
`pageInfo.hasNextPage`. -/
structure PageData where
  edges : List (Option ℤ)
  hasNextPage : Bool
deriving DecidableEq

/-- Outcome of one `execute_graphql` round trip: a stargazers page, a null
`repository` field, or a raised exception (timeout / HTTP / GraphQL error —
all are caught and mapped to `None` by the source). -/
inductive GqlResp where
  | ok (p : PageData)
  | noRepo
  | fail
deriving DecidableEq

/-- Cache key of a star-increase entry: `(owner, repo, since, until)`. -/
abbrev StarKey := String × String × ℤ × ℤ

/-- External state threaded through the star-increase engine: the persistent
cache plus counters of GraphQL and REST round trips issued. -/
structure StarState where
  cache : List (StarKey × ℤ)
  graphqlRequests : ℕ
  restRequests : ℕ
deriving DecidableEq

/-- Result of the `for edge in edges` scan of one page (stargazers.py lines
111-132): `cont c` means the page was exhausted with counter `c`, `term c`
means an edge before `since` fired early termination (`has_next_page =
False; break`), `cap` means the counter reached 1000. -/
inductive ScanOut where
  | cont (c : ℕ)
  | term (c : ℕ)
  | cap
deriving DecidableEq

/-- Embedding of the per-page edge loop of `fetch_repository_star_increase`
(stargazers.py lines 111-132), with `c` the running `star_count`. -/
def scanEdges (since untl : ℤ) : ℕ → List (Option ℤ) → ScanOut
  | c, [] => .cont c
  | c, none :: rest => scanEdges since untl c rest
  | c, some t :: rest =>
      if t < since then .term c
      else if since ≤ t ∧ t ≤ untl then
        if 1000 ≤ c + 1 then .cap
        else scanEdges since untl (c + 1) rest
      else scanEdges since untl c rest

/-- Embedding of the `while has_next_page` pagination loop of
`fetch_repository_star_increase` (stargazers.py lines 93-144).  Each
consumed response is one GraphQL round trip.  An exhausted response list
while the loop still wants a page stands for a transport failure (the
theorems below always supply enough responses). -/
def starLoop (owner repo : String) (since untl : ℤ) :
    List GqlResp → ℕ → StarState → Option ℤ × StarState
  | [], _, st => (none, st)
  | resp :: rest, count, st =>
    let st1 : StarState := { st with graphqlRequests := st.graphqlRequests + 1 }
    match resp with
    | .noRepo => (none, st1)
    | .fail => (none, st1)
    | .ok p =>
      match scanEdges since untl count p.edges with
      | .cap => (some (-1),
          { st1 with cache := ((owner, repo, since, untl), -1) :: st1.cache })
      | .term c => (some (c : ℤ),
          { st1 with cache := ((owner, repo, since, untl), (c : ℤ)) :: st1.cache })
      | .cont c =>
        if p.hasNextPage then starLoop owner repo since untl rest c st1
        else (some (c : ℤ),
          { st1 with cache := ((owner, repo, since, untl), (c : ℤ)) :: st1.cache })

/-- External world seen by one call of `fetch_repository_star_increase`:
the REST `stargazers_count` of the repository (`none` models the request
raising) and the successive GraphQL responses. -/
structure StarWorld where
  repoStars : Option ℤ
  responses : List GqlResp

/-- Embedding of `fetch_repository_star_increase` (stargazers.py lines
17-160): cache check first, then the all-time REST shortcut for
`since ≤ githubLaunch`, then the GraphQL pagination loop. -/
def fetch_repository_star_increase (w : StarWorld) (owner repo : String)
    (since untl : ℤ) (st : StarState) : Option ℤ × StarState :=
  let key : StarKey := (owner, repo, since, untl)
  match cacheLookup st.cache key with
  | some v => (some v, st)
  | none =>
    if since ≤ githubLaunch then
      match w.repoStars with
      | some n => (some n,
          { st with restRequests := st.restRequests + 1, cache := (key, n) :: st.cache })
      | none => (none, { st with restRequests := st.restRequests + 1 })
    else
      starLoop owner repo since untl w.responses 0 st

/-- Number of timestamps in `ts` that fall within `[since, untl]`. -/
def countWindow (since untl : ℤ) (ts : List ℤ) : ℕ :=
  ts.countP fun t => decide (since ≤ t ∧ t ≤ untl)

theorem countWindow_nil (since untl : ℤ) : countWindow since untl [] = 0 := rfl

theorem countWindow_cons (since untl t : ℤ) (ts : List ℤ) :
    countWindow since untl (t :: ts) =
      countWindow since untl ts + if since ≤ t ∧ t ≤ untl then 1 else 0 := by
  simp [countWindow, List.countP_cons]

theorem countWindow_append (since untl : ℤ) (ts₁ ts₂ : List ℤ) :
    countWindow since untl (ts₁ ++ ts₂) =
      countWindow since untl ts₁ + countWindow since untl ts₂ := by
  simp [countWindow, List.countP_append]

/-- Scanning a page whose timestamps are all `≥ since` and whose in-window
total keeps the counter below 1000 exhausts the page, adding the in-window
count to the counter. -/
theorem scanEdges_cont (since untl : ℤ) (ts : List ℤ) :
    ∀ c : ℕ, (∀ t ∈ ts, since ≤ t) → c + countWindow since untl ts < 1000 →
      scanEdges since untl c (ts.map some) = .cont (c + countWindow since untl ts) := by
  induction ts with
  | nil => intro c _ _; simp [scanEdges, countWindow_nil]
  | cons t ts ih =>
    intro c h1 h2
    have hts : since ≤ t := h1 t (List.mem_cons_self t ts)
    rw [countWindow_cons] at h2 ⊢
    simp only [List.map_cons, scanEdges, List.append_eq, if_neg (not_lt.mpr hts)]
    by_cases hw : since ≤ t ∧ t ≤ untl
    · rw [if_pos hw, if_neg (by rw [if_pos hw] at h2; omega),
        ih (c + 1) (fun t' ht' => h1 t' (List.mem_cons_of_mem t ht'))
          (by rw [if_pos hw] at h2; omega)]
      rw [if_pos hw]; congr 1; omega
    · rw [if_neg hw, ih c (fun t' ht' => h1 t' (List.mem_cons_of_mem t ht'))
        (by rw [if_neg hw] at h2; omega)]
      rw [if_neg hw]; congr 1

/-- Scanning a page whose first below-`since` timestamp is `tk` fires early
termination exactly there, having counted the in-window prefix. -/
theorem scanEdges_term (since untl : ℤ) (tk : ℤ) (suf : List ℤ) (pre : List ℤ) :
    ∀ c : ℕ, (∀ t ∈ pre, since ≤ t) → tk < since →
      c + countWindow since untl pre < 1000 →
      scanEdges since untl c ((pre ++ tk :: suf).map some) =
        .term (c + countWindow since untl pre) := by
  induction pre with
  | nil =>
    intro c _ hk _
    simp [scanEdges, if_pos hk, countWindow_nil]
  | cons t pre ih =>
    intro c h1 hk h2
    have hts : since ≤ t := h1 t (List.mem_cons_self t pre)
    rw [countWindow_cons] at h2 ⊢
    simp only [List.cons_append, List.map_cons, scanEdges, List.append_eq,
      if_neg (not_lt.mpr hts)]
    by_cases hw : since ≤ t ∧ t ≤ untl
    · rw [if_pos hw, if_neg (by rw [if_pos hw] at h2; omega),
        ih (c + 1) (fun t' ht' => h1 t' (List.mem_cons_of_mem t ht')) hk
          (by rw [if_pos hw] at h2; omega)]
      rw [if_pos hw]; congr 1; omega
    · rw [if_neg hw, ih c (fun t' ht' => h1 t' (List.mem_cons_of_mem t ht')) hk
        (by rw [if_neg hw] at h2; omega)]
      rw [if_neg hw]; congr 1

/-- Scanning a page that contains the 1000th in-window timestamp `tk` (with
nothing below `since` before it) aborts with the cap. -/
theorem scanEdges_cap (since untl : ℤ) (tk : ℤ) (suf : List ℤ) (pre : List ℤ) :
    ∀ c : ℕ, (∀ t ∈ pre, since ≤ t) → since ≤ tk ∧ tk ≤ untl →
      c + countWindow since untl pre + 1 = 1000 →
      scanEdges since untl c ((pre ++ tk :: suf).map some) = .cap := by
  induction pre with
  | nil =>
    intro c _ hk h2
    rw [countWindow_nil] at h2
    have hc : (1000 : ℕ) ≤ c + 1 := by omega
    simp only [List.nil_append, List.map_cons, scanEdges, if_neg (not_lt.mpr hk.1),
      if_pos hk, if_pos hc]
  | cons t pre ih =>
    intro c h1 hk h2
    have hts : since ≤ t := h1 t (List.mem_cons_self t pre)
    rw [countWindow_cons] at h2
    simp only [List.cons_append, List.map_cons, scanEdges, List.append_eq,
      if_neg (not_lt.mpr hts)]
    by_cases hw : since ≤ t ∧ t ≤ untl
    · rw [if_pos hw, if_neg (by rw [if_pos hw] at h2; omega),
        ih (c + 1) (fun t' ht' => h1 t' (List.mem_cons_of_mem t ht')) hk
          (by rw [if_pos hw] at h2; omega)]
    · rw [if_neg hw, ih c (fun t' ht' => h1 t' (List.mem_cons_of_mem t ht')) hk
        (by rw [if_neg hw] at h2; omega)]

/-- Paginating over full pages (`hasNextPage = true`) whose timestamps are
all `≥ since` consumes one GraphQL round trip per page and accumulates
their in-window counts. -/
theorem starLoop_full_pages (owner repo : String) (since untl : ℤ)
    (tss : List (List ℤ)) :
    ∀ (rest : List GqlResp) (c : ℕ) (st : StarState),
      (∀ ts ∈ tss, ∀ t ∈ ts, since ≤ t) →
      c + countWindow since untl tss.flatten < 1000 →
      starLoop owner repo since untl
          ((tss.map fun ts => GqlResp.ok ⟨ts.map some, true⟩) ++ rest) c st =
        starLoop owner repo since untl rest (c + countWindow since untl tss.flatten)
          { st with graphqlRequests := st.graphqlRequests + tss.length } := by
  induction tss with
  | nil =>
    intro rest c st _ _
    simp [countWindow_nil]
  | cons ts tss ih =>
    intro rest c st h1 h2
    rw [List.flatten_cons, countWindow_append] at h2 ⊢
    have hts : ∀ t ∈ ts, since ≤ t := h1 ts (List.mem_cons_self ts tss)
    simp only [List.map_cons, List.cons_append, starLoop]
    rw [scanEdges_cont since untl ts c hts (by omega)]
    simp only [if_true, List.append_eq]
    rw [ih rest (c + countWindow since untl ts) _
      (fun ts' hts' => h1 ts' (List.mem_cons_of_mem ts hts')) (by omega)]
    have e1 : c + countWindow since untl ts + countWindow since untl tss.flatten
        = c + (countWindow since untl ts + countWindow since untl tss.flatten) := by omega
    have e2 : st.graphqlRequests + 1 + tss.length
        = st.graphqlRequests + (ts :: tss).length := by
      simp only [List.length_cons]; omega
    rw [e1, e2]

set_option linter.unusedVariables false in
/-- C1: for stargazer edges delivered in strictly descending `starredAt`
order where edge `tk` (the k-th edge overall, living on the page after
`prePages`) is the first with a timestamp strictly before `since`,
`fetch_repository_star_increase` stops at that edge without counting it:
it returns the count of in-window edges seen before it and issues exactly
one GraphQL request per page up to and including the page containing `tk`
(so none beyond it), assuming the counter stays below 1000, `since` is
after GitHub's launch, and the cache has no prior entry.  The descending
order `hdesc` is part of the claim's setting (it is what makes early
termination sound); the scan itself does not depend on it. -/
theorem star_increase_early_termination
    (w : StarWorld) (owner repo : String) (since untl : ℤ) (st : StarState)
    (prePages : List (List ℤ)) (preEdges suf : List ℤ) (tk : ℤ) (hnp : Bool)
    (rest : List GqlResp)
    (hw : w.responses =
        (prePages.map fun ts => GqlResp.ok ⟨ts.map some, true⟩) ++
          GqlResp.ok ⟨(preEdges ++ tk :: suf).map some, hnp⟩ :: rest)
    (hdesc : (prePages.flatten ++ preEdges ++ tk :: suf).Chain' (fun a b => b < a))
    (hge : ∀ t ∈ prePages.flatten ++ preEdges, since ≤ t)
    (hk : tk < since)
    (hcap : countWindow since untl (prePages.flatten ++ preEdges) < 1000)
    (hsince : githubLaunch < since)
    (hcache : cacheLookup st.cache (owner, repo, since, untl) = none) :
    (fetch_repository_star_increase w owner repo since untl st).1 =
        some ((countWindow since untl (prePages.flatten ++ preEdges) : ℤ)) ∧
    (fetch_repository_star_increase w owner repo since untl st).2.graphqlRequests =
        st.graphqlRequests + prePages.length + 1 := by
  have hge1 : ∀ ts ∈ prePages, ∀ t ∈ ts, since ≤ t := by
    intro ts hts t ht
    exact hge t (List.mem_append_left _ (List.mem_flatten.mpr ⟨ts, hts, ht⟩))
  have hge2 : ∀ t ∈ preEdges, since ≤ t := fun t ht => hge t (List.mem_append_right _ ht)
  rw [countWindow_append] at hcap
  simp only [fetch_repository_star_increase, hcache, if_neg (not_le.mpr hsince), hw]
  rw [starLoop_full_pages owner repo since untl prePages _ 0 st hge1 (by omega)]
  simp only [starLoop]
  rw [scanEdges_term since untl tk suf preEdges _ hge2 hk (by omega)]
  refine ⟨?_, rfl⟩
  simp only [countWindow_append]
  congr 1
  omega

/-- Witness for C1: two pages, early termination on the second page after
counting the two in-window edges. -/
theorem star_increase_early_termination_witness :
    (fetch_repository_star_increase
        ⟨none, [GqlResp.ok ⟨[some 1300000099], true⟩,
          GqlResp.ok ⟨[some 1300000050, some 1299999999, some 1299999998], false⟩]⟩
        "acme" "widget" 1300000000 1300000100 ⟨[], 0, 0⟩).1 = some 2 ∧
    (fetch_repository_star_increase
        ⟨none, [GqlResp.ok ⟨[some 1300000099], true⟩,
          GqlResp.ok ⟨[some 1300000050, some 1299999999, some 1299999998], false⟩]⟩
        "acme" "widget" 1300000000 1300000100 ⟨[], 0, 0⟩).2.graphqlRequests = 2 := by
  have h := star_increase_early_termination
    ⟨none, [GqlResp.ok ⟨[some 1300000099], true⟩,
      GqlResp.ok ⟨[some 1300000050, some 1299999999, some 1299999998], false⟩]⟩
    "acme" "widget" 1300000000 1300000100 ⟨[], 0, 0⟩
    [[1300000099]] [1300000050] [1299999998] 1299999999 false []
    rfl
    (by simp only [List.flatten_cons, List.flatten_nil, List.append_nil,
          List.cons_append, List.nil_append, List.chain'_cons,
          List.chain'_singleton, and_true]
        decide)
    (by decide) (by decide) (by decide) (by decide) rfl
  exact ⟨h.1.trans (by decide), h.2.trans (by decide)⟩

/-- C3: in the general GraphQL path, as soon as the in-window counter
reaches 1000 (at edge `tk`, the 1000th in-window edge), the function stops
all further pagination (no request beyond the page containing `tk`), writes
the sentinel `-1` to the cache under the `(owner, repo, since, until)` key,
and returns `-1`. -/
theorem star_increase_cap_sentinel
    (w : StarWorld) (owner repo : String) (since untl : ℤ) (st : StarState)
    (prePages : List (List ℤ)) (preEdges suf : List ℤ) (tk : ℤ) (hnp : Bool)
    (rest : List GqlResp)
    (hw : w.responses =
        (prePages.map fun ts => GqlResp.ok ⟨ts.map some, true⟩) ++
          GqlResp.ok ⟨(preEdges ++ tk :: suf).map some, hnp⟩ :: rest)
    (hge : ∀ t ∈ prePages.flatten ++ preEdges, since ≤ t)
    (hk : since ≤ tk ∧ tk ≤ untl)
    (hcap : countWindow since untl (prePages.flatten ++ preEdges) + 1 = 1000)
    (hsince : githubLaunch < since)
    (hcache : cacheLookup st.cache (owner, repo, since, untl) = none) :
    (fetch_repository_star_increase w owner repo since untl st).1 = some (-1) ∧
    cacheLookup (fetch_repository_star_increase w owner repo since untl st).2.cache
        (owner, repo, since, untl) = some (-1) ∧
    (fetch_repository_star_increase w owner repo since untl st).2.graphqlRequests =
        st.graphqlRequests + prePages.length + 1 := by
  have hge1 : ∀ ts ∈ prePages, ∀ t ∈ ts, since ≤ t := by
    intro ts hts t ht
    exact hge t (List.mem_append_left _ (List.mem_flatten.mpr ⟨ts, hts, ht⟩))
  have hge2 : ∀ t ∈ preEdges, since ≤ t := fun t ht => hge t (List.mem_append_right _ ht)
  rw [countWindow_append] at hcap
  simp only [fetch_repository_star_increase, hcache, if_neg (not_le.mpr hsince), hw]
  rw [starLoop_full_pages owner repo since untl prePages _ 0 st hge1 (by omega)]
  simp only [starLoop]
  rw [scanEdges_cap since untl tk suf preEdges _ hge2 hk (by omega)]
  exact ⟨rfl, by simp [cacheLookup], rfl⟩

/-- Concrete 999-element in-window prefix used by the C3 witness. -/
def capPrefix1000 : List ℤ := (List.range 999).map fun i : ℕ => (1300002000 : ℤ) - (i : ℤ)

/-- Witness for C3: a single page holding 1000 in-window edges (then more)
triggers the sentinel after one request. -/
def capWitnessWorld : StarWorld :=
  ⟨none, [GqlResp.ok ⟨(capPrefix1000 ++ 1300000999 :: [1300000998]).map some, true⟩]⟩

set_option maxRecDepth 8000 in
theorem star_increase_cap_sentinel_witness :
    (fetch_repository_star_increase capWitnessWorld
        "acme" "widget" 1300000000 1300003000 ⟨[], 0, 0⟩).1 = some (-1) ∧
    (fetch_repository_star_increase capWitnessWorld
        "acme" "widget" 1300000000 1300003000 ⟨[], 0, 0⟩).2.graphqlRequests = 1 := by
  have hge : ∀ t ∈ (([] : List (List ℤ)).flatten ++ capPrefix1000), (1300000000 : ℤ) ≤ t := by
    intro t ht
    simp only [List.flatten_nil, List.nil_append, capPrefix1000, List.mem_map,
      List.mem_range] at ht
    obtain ⟨i, hi, rfl⟩ := ht
    omega
  have h9 : countWindow 1300000000 1300003000 capPrefix1000 = 999 := by
    have hall : ∀ t ∈ capPrefix1000,
        (decide ((1300000000 : ℤ) ≤ t ∧ t ≤ 1300003000)) = true := by
      intro t ht
      simp only [capPrefix1000, List.mem_map, List.mem_range] at ht
      obtain ⟨i, hi, rfl⟩ := ht
      simp only [decide_eq_true_eq]
      omega
    rw [countWindow, List.countP_eq_length.mpr hall, capPrefix1000,
      List.length_map, List.length_range]
  have hcw : countWindow 1300000000 1300003000
      (([] : List (List ℤ)).flatten ++ capPrefix1000) + 1 = 1000 := by
    simp only [List.flatten_nil, List.nil_append, h9]
  have h := star_increase_cap_sentinel capWitnessWorld
    "acme" "widget" 1300000000 1300003000 ⟨[], 0, 0⟩
    [] capPrefix1000 [1300000998] 1300000999 true []
    rfl hge (by decide) hcw (by decide) rfl
  exact ⟨h.1, h.2.2.trans (by decide)⟩

/-- C6: a first successful call whose stargazer data fits in one GraphQL
page caches its result, so a second call with identical arguments is served
from the cache, returns the same value, leaves the state untouched, and
issues no further GraphQL request: exactly one round trip across both
calls. -/
theorem star_increase_cache_idempotent
    (w : StarWorld) (owner repo : String) (since untl : ℤ) (st : StarState)
    (p : PageData) (v : ℤ)
    (hsince : githubLaunch < since)
    (hcache : cacheLookup st.cache (owner, repo, since, untl) = none)
    (hw : w.responses = [GqlResp.ok p])
    (hsucc : (fetch_repository_star_increase w owner repo since untl st).1 = some v) :
    (fetch_repository_star_increase w owner repo since untl st).2.graphqlRequests =
        st.graphqlRequests + 1 ∧
    fetch_repository_star_increase w owner repo since untl
        (fetch_repository_star_increase w owner repo since untl st).2 =
      (some v, (fetch_repository_star_increase w owner repo since untl st).2) := by
  have hunfold : fetch_repository_star_increase w owner repo since untl st
      = starLoop owner repo since untl [GqlResp.ok p] 0 st := by
    simp only [fetch_repository_star_increase, hcache, if_neg (not_le.mpr hsince), hw]
  rw [hunfold] at hsucc ⊢
  simp only [starLoop] at hsucc ⊢
  cases hscan : scanEdges since untl 0 p.edges with
  | cap =>
    rw [hscan] at hsucc
    simp only at hsucc
    rw [Option.some_inj] at hsucc
    subst hsucc
    refine ⟨rfl, ?_⟩
    simp [fetch_repository_star_increase, cacheLookup]
  | term c =>
    rw [hscan] at hsucc
    simp only at hsucc
    rw [Option.some_inj] at hsucc
    subst hsucc
    refine ⟨rfl, ?_⟩
    simp [fetch_repository_star_increase, cacheLookup]
  | cont c =>
    rw [hscan] at hsucc
    cases hnp : p.hasNextPage with
    | true =>
      rw [hnp] at hsucc
      simp [starLoop] at hsucc
    | false =>
      rw [hnp] at hsucc
      simp only [Bool.false_eq_true, if_false] at hsucc ⊢
      rw [Option.some_inj] at hsucc
      subst hsucc
      refine ⟨trivial, ?_⟩
      simp [fetch_repository_star_increase, cacheLookup]

/-- Witness for C6: one in-window edge, one page; the second call is a cache
hit returning the same value with no second request. -/
theorem star_increase_cache_idempotent_witness :
    (fetch_repository_star_increase ⟨none, [GqlResp.ok ⟨[some 1300000050], false⟩]⟩
        "acme" "widget" 1300000000 1300000100 ⟨[], 0, 0⟩).2.graphqlRequests = 0 + 1 ∧
    fetch_repository_star_increase ⟨none, [GqlResp.ok ⟨[some 1300000050], false⟩]⟩
        "acme" "widget" 1300000000 1300000100
        (fetch_repository_star_increase ⟨none, [GqlResp.ok ⟨[some 1300000050], false⟩]⟩
          "acme" "widget" 1300000000 1300000100 ⟨[], 0, 0⟩).2 =
      (some 1,
        (fetch_repository_star_increase ⟨none, [GqlResp.ok ⟨[some 1300000050], false⟩]⟩
          "acme" "widget" 1300000000 1300000100 ⟨[], 0, 0⟩).2) :=
  star_increase_cache_idempotent
    ⟨none, [GqlResp.ok ⟨[some 1300000050], false⟩]⟩
    "acme" "widget" 1300000000 1300000100 ⟨[], 0, 0⟩
    ⟨[some 1300000050], false⟩ 1 (by decide) rfl rfl (by decide)

/-! ### Search pagination engine (`client.py`, `search_all_issues`)

The REST world is a function from page number to the response of
`search_issues` for that page (`none` models the request raising).  The
concurrent fetch of pages `2..total_pages` via `asyncio.gather` is
modelled explicitly: the coroutines finish in an arbitrary completion
order (`schedule`, a permutation of the task indices) and `gather` places
each result back into its submission slot, which `assemble` reproduces. -/

/-- Response of one `search_issues` call: `total_count` and the page items. -/
structure SearchResp (α : Type) where
  total_count : ℕ
  items : List α

/-- Embedding of `target_count = min(total_count, max_results) if
max_results else total_count` (client.py line 266), including Python's
truthiness: `max_results = 0` behaves like `None`. -/
def targetCount (total : ℕ) (maxResults : Option ℕ) : ℕ :=
  match maxResults with
  | some k => if k = 0 then total else min total k
  | none => total

/-- Reassembly of `asyncio.gather` results: `completions` lists
`(task index, task result)` pairs in completion order; slot `i` of the
output receives the result of task `i`. -/
def assemble {β : Type} (n : ℕ) (completions : List (ℕ × β)) : List (Option β) :=
  (List.range n).map fun i => (completions.find? fun c => c.1 == i).map Prod.snd

/-- Items contributed by the gathered page results, in submission (page)
order: a raised page fetch (`some none`) and an unfilled slot (`none`)
contribute no items. -/
def collectItems {α : Type} : List (Option (Option (SearchResp α))) → List α
  | [] => []
  | r :: rest =>
    (match r with
     | some (some resp) => resp.items
     | some none => []
     | none => []) ++ collectItems rest

/-- Embedding of `search_all_issues` (client.py lines 232-313).  `world p`
is the outcome of `search_issues(query, sort, order, per_page, p)`
(`none` = the call raises, propagating on pages 1 and 2, caught and
treated as an empty page in the concurrent path); `schedule` is the
completion order of the concurrent page fetches. -/
def search_all_issues {α : Type} (world : ℕ → Option (SearchResp α)) (perPage : ℕ)
    (maxResults : Option ℕ) (schedule : List ℕ) : Except Unit (List α) :=
  match world 1 with
  | none => .error ()
  | some first =>
    let target := targetCount first.total_count maxResults
    if target ≤ first.items.length then .ok (first.items.take target)
    else
      let totalPages := (target + perPage - 1) / perPage
      if totalPages ≤ 2 then
        match world 2 with
        | none => .error ()
        | some second => .ok ((first.items ++ second.items).take target)
      else
        let fetched := assemble (totalPages - 1)
          (schedule.map fun i => (i, world (i + 2)))
        .ok ((first.items ++ collectItems fetched).take target)

/-- Items of page `p` as seen by the caller after the per-page exception
handler: a raised fetch contributes no items. -/
def pageItems {α : Type} (world : ℕ → Option (SearchResp α)) (p : ℕ) : List α :=
  match world p with
  | some resp => resp.items
  | none => []

/-- Concatenation of a list of lists in order. -/
def concatAll {α : Type} : List (List α) → List α
  | [] => []
  | l :: ls => l ++ concatAll ls

theorem concatAll_append {α : Type} (xs ys : List (List α)) :
    concatAll (xs ++ ys) = concatAll xs ++ concatAll ys := by
  induction xs with
  | nil => rfl
  | cons x xs ih => simp [concatAll, ih]

/-- Finding key `i` in completion-ordered results recovers task `i`'s
result, whatever the completion order, as long as task `i` completed. -/
theorem find?_completion {β : Type} (g : ℕ → β) (i : ℕ) :
    ∀ sched : List ℕ, i ∈ sched →
      ((sched.map fun j => (j, g j)).find? fun c => c.1 == i) = some (i, g i) := by
  intro sched
  induction sched with
  | nil => intro h; exact absurd h (List.not_mem_nil i)
  | cons j tl ih =>
    intro h
    rw [List.map_cons, List.find?_cons]
    by_cases hji : j = i
    · subst hji
      simp
    · have hne : (j == i) = false := by simp [hji]
      rw [hne]
      apply ih
      rcases List.mem_cons.mp h with h' | h'
      · exact absurd h'.symm hji
      · exact h'

/-- Reassembling any completion order that is a permutation of the task
indices yields the task results in submission order. -/
theorem assemble_perm {β : Type} (g : ℕ → β) (n : ℕ) (sched : List ℕ)
    (h : sched.Perm (List.range n)) :
    assemble n (sched.map fun j => (j, g j)) = (List.range n).map fun i => some (g i) := by
  unfold assemble
  apply List.map_congr_left
  intro i hi
  have hmem : i ∈ sched := h.mem_iff.mpr hi
  rw [find?_completion g i sched hmem]
  rfl

/-- Collecting the assembled results of the page tasks equals the ascending
page-order concatenation of each page's contributed items. -/
theorem collectItems_assembled {α : Type} (world : ℕ → Option (SearchResp α)) :
    ∀ ps : List ℕ,
      collectItems (ps.map fun p => some (world p)) = concatAll (ps.map (pageItems world)) := by
  intro ps
  induction ps with
  | nil => rfl
  | cons p ps ih =>
    simp only [List.map_cons, collectItems, concatAll, ih, pageItems]
    cases world p <;> rfl

/-- Concatenating consecutive `perPage`-sized slices of `L` starting at
offset `s` yields the corresponding contiguous segment of `L`. -/
theorem concatAll_slices {α : Type} (L : List α) (P : ℕ) :
    ∀ n s : ℕ, concatAll ((List.range n).map fun i => (L.drop (s + i * P)).take P)
      = (L.drop s).take (n * P) := by
  intro n
  induction n with
  | zero => intro s; rw [Nat.zero_mul]; rfl
  | succ n ih =>
    intro s
    rw [List.range_succ, List.map_append, concatAll_append]
    simp only [List.map_cons, List.map_nil, concatAll, List.append_nil]
    rw [ih s, Nat.succ_mul, List.take_add]
    congr 1
    rw [List.drop_drop]

/-- Under a well-behaved API (every page `p` returns `total_count =
L.length` and the p-th `perPage`-slice of the master list `L`) and any
completion order of the concurrent fetches, `search_all_issues` returns
exactly the first `targetCount` elements of `L`. -/
theorem search_all_issues_slices {α : Type} (world : ℕ → Option (SearchResp α))
    (L : List α) (P : ℕ) (maxResults : Option ℕ) (schedule : List ℕ)
    (hP : 0 < P)
    (hworld : ∀ p, 1 ≤ p → world p = some ⟨L.length, (L.drop ((p - 1) * P)).take P⟩)
    (hsched : schedule.Perm
      (List.range ((targetCount L.length maxResults + P - 1) / P - 1))) :
    search_all_issues world P maxResults schedule
      = .ok (L.take (targetCount L.length maxResults)) := by
  set target := targetCount L.length maxResults with htargetdef
  have htle : target ≤ L.length := by
    rw [htargetdef]
    unfold targetCount
    cases maxResults with
    | none => exact le_refl _
    | some k =>
      dsimp only
      split
      · exact le_refl _
      · exact min_le_left _ _
  have hw1 : world 1 = some ⟨L.length, L.take P⟩ := by
    rw [hworld 1 (le_refl 1)]
    norm_num
  simp only [search_all_issues, hw1, List.length_take]
  rw [← htargetdef]
  by_cases hA : target ≤ min P L.length
  · rw [if_pos hA, List.take_take, min_eq_left (le_trans hA (min_le_left _ _))]
  · rw [if_neg hA]
    have hPt : P < target ∧ P ≤ L.length := by omega
    have h2le : 2 ≤ (target + P - 1) / P := by
      rw [Nat.le_div_iff_mul_le hP]
      omega
    by_cases hB : (target + P - 1) / P ≤ 2
    · rw [if_pos hB]
      have hw2 : world 2 = some ⟨L.length, (L.drop P).take P⟩ := by
        rw [hworld 2 (by omega)]
        norm_num
      simp only [hw2]
      have ht2P : target ≤ P + P := by
        have h3 : ¬ 3 ≤ (target + P - 1) / P := by omega
        rw [Nat.le_div_iff_mul_le hP] at h3
        omega
      rw [← List.take_add, List.take_take, min_eq_left (by omega)]
    · rw [if_neg hB]
      obtain ⟨m, hm⟩ : ∃ m, (target + P - 1) / P = m + 3 := by
        refine ⟨(target + P - 1) / P - 3, ?_⟩
        omega
      have hmul2 : (m + 2) * P = m * P + P + P := by
        rw [Nat.succ_mul, Nat.succ_mul]
      have hmul3 : (m + 3) * P = m * P + P + P + P := by
        rw [Nat.succ_mul, Nat.succ_mul, Nat.succ_mul]
      have hceil : target ≤ (m + 3) * P := by
        by_contra hlt
        push_neg at hlt
        have h1 : (m + 4) * P ≤ target + P - 1 := by
          have h4 : (m + 4) * P = m * P + P + P + P + P := by
            rw [Nat.succ_mul, Nat.succ_mul, Nat.succ_mul, Nat.succ_mul]
          omega
        have h2 : m + 4 ≤ (target + P - 1) / P := (Nat.le_div_iff_mul_le hP).mpr h1
        omega
      rw [hm] at hsched ⊢
      have hstep : (m + 3 - 1 : ℕ) = m + 2 := by omega
      rw [hstep] at hsched ⊢
      rw [assemble_perm (fun i => world (i + 2)) (m + 2) schedule hsched]
      have hmm : ((List.range (m + 2)).map fun i => some (world (i + 2))) =
          (((List.range (m + 2)).map fun i => i + 2).map fun p => some (world p)) := by
        rw [List.map_map]
        rfl
      rw [hmm, collectItems_assembled world, List.map_map]
      have hpage : ∀ i ∈ List.range (m + 2),
          (pageItems world ∘ fun i => i + 2) i = (L.drop (P + i * P)).take P := by
        intro i _
        simp only [Function.comp_apply, pageItems, hworld (i + 2) (by omega)]
        have harg : (i + 2 - 1) * P = P + i * P := by
          have h5 : (i + 1) * P = i * P + P := Nat.succ_mul i P
          have h6 : (i + 2 - 1 : ℕ) = i + 1 := by omega
          rw [h6]
          omega
        rw [harg]
      rw [List.map_congr_left hpage, concatAll_slices L P (m + 2) P, ← List.take_add,
        List.take_take, min_eq_left (by omega)]

/-- C9: in the concurrent path, `search_all_issues` returns the collected
items concatenated in ascending page order — page 1's items first, then the
items of pages 2 through `total_pages` in page-number order, a failed page
contributing no items — regardless of the completion order of the
concurrent page fetches (any permutation `schedule` of the task indices
gives the same result, which does not mention `schedule`). -/
theorem search_all_issues_page_order {α : Type} (world : ℕ → Option (SearchResp α))
    (perPage : ℕ) (maxResults : Option ℕ) (schedule : List ℕ)
    (first : SearchResp α) (target tp : ℕ)
    (h1 : world 1 = some first)
    (htarget : target = targetCount first.total_count maxResults)
    (htp : tp = (target + perPage - 1) / perPage)
    (hbig : ¬ target ≤ first.items.length)
    (hpages : ¬ tp ≤ 2)
    (hsched : schedule.Perm (List.range (tp - 1))) :
    search_all_issues world perPage maxResults schedule =
      .ok ((first.items ++
        concatAll (((List.range (tp - 1)).map fun i => i + 2).map
          (pageItems world))).take target) := by
  subst htarget
  subst htp
  simp only [search_all_issues, h1]
  rw [if_neg hbig, if_neg hpages,
    assemble_perm (fun i => world (i + 2)) _ schedule hsched]
  have hmm : ((List.range ((targetCount first.total_count maxResults + perPage - 1) /
        perPage - 1)).map fun i => some (world (i + 2))) =
      (((List.range ((targetCount first.total_count maxResults + perPage - 1) /
        perPage - 1)).map fun i => i + 2).map fun p => some (world p)) := by
    rw [List.map_map]
    rfl
  rw [hmm, collectItems_assembled world]

/-- Concrete world for the C9 witness: five one-item pages, page 3 failing. -/
def pageOrderWorld : ℕ → Option (SearchResp ℕ) := fun p =>
  if p = 3 then none else some ⟨5, [10 * p]⟩

/-- Witness for C9: pages complete in the order 4, 2, 5, 3 yet the result
lists page 2's item before page 4's and page 5's, with failed page 3
contributing nothing. -/
theorem search_all_issues_page_order_witness :
    search_all_issues pageOrderWorld 1 none [2, 0, 3, 1] = .ok [10, 20, 40, 50] :=
  (search_all_issues_page_order pageOrderWorld 1 none [2, 0, 3, 1]
    ⟨5, [10]⟩ 5 5 rfl rfl rfl (by decide) (by decide) (by decide)).trans (by rfl)

/-- Concrete world for the C4 counterexample: one result in total. -/
def zeroMaxWorld : ℕ → Option (SearchResp ℕ) := fun _ => some ⟨1, [7]⟩

/-- C4 counterexample: called with `max_results = 0` on a search with
`total_count = 1`, `search_all_issues` returns 1 item, not
`min(0, total_count) = 0` — Python's `if max_results` treats 0 like None. -/
theorem search_all_issues_max_results_zero_cex :
    search_all_issues zeroMaxWorld 100 (some 0) [] = .ok [7] ∧
    ¬ ((search_all_issues zeroMaxWorld 100 (some 0) []).toOption.map List.length
        = some (min 0 1)) :=
  ⟨rfl, by decide⟩

/-- C4 (amended): for every search where no page fetch fails and the API
supplies `total_count` items across full pages of size `per_page`,
`search_all_issues` called with `max_results = K` for `K ≥ 1` returns
exactly `min(K, total_count)` items, and called with `max_results = None`
returns exactly `total_count` items (the result being the target-count
truncation of the master list); `max_results = 0` is treated like None. -/
theorem search_all_issues_truncation {α : Type} (world : ℕ → Option (SearchResp α))
    (L : List α) (P k : ℕ) (s1 s2 : List ℕ)
    (hP : 0 < P) (hk : 1 ≤ k)
    (hworld : ∀ p, 1 ≤ p → world p = some ⟨L.length, (L.drop ((p - 1) * P)).take P⟩)
    (hs1 : s1.Perm (List.range ((min L.length k + P - 1) / P - 1)))
    (hs2 : s2.Perm (List.range ((L.length + P - 1) / P - 1))) :
    (search_all_issues world P (some k) s1 = .ok (L.take (min L.length k)) ∧
      (L.take (min L.length k)).length = min k L.length) ∧
    search_all_issues world P none s2 = .ok L := by
  have ht1 : targetCount L.length (some k) = min L.length k := by
    simp only [targetCount]
    rw [if_neg (show ¬ k = 0 by omega)]
  have ht2 : targetCount L.length none = L.length := rfl
  refine ⟨⟨?_, ?_⟩, ?_⟩
  · have h := search_all_issues_slices world L P (some k) s1 hP hworld
      (by rw [ht1]; exact hs1)
    rw [ht1] at h
    exact h
  · rw [List.length_take]
    omega
  · have h := search_all_issues_slices world L P none s2 hP hworld
      (by rw [ht2]; exact hs2)
    rw [ht2, List.take_length] at h
    exact h

/-- Concrete well-behaved world for the C4 witness: three items, one per
page. -/
def truncationWorld : ℕ → Option (SearchResp ℕ) := fun p =>
  some ⟨([10, 20, 30] : List ℕ).length, (([10, 20, 30] : List ℕ).drop ((p - 1) * 1)).take 1⟩

/-- Witness for C4 (amended): `max_results = 2` of 3 results returns the
first 2; `max_results = None` returns all 3 even when the concurrent pages
complete out of order. -/
theorem search_all_issues_truncation_witness :
    search_all_issues truncationWorld 1 (some 2) [0] = .ok [10, 20] ∧
    search_all_issues truncationWorld 1 none [1, 0] = .ok [10, 20, 30] := by
  have h := search_all_issues_truncation truncationWorld [10, 20, 30] 1 2 [0] [1, 0]
    (by decide) (by decide) (fun p _ => rfl) (by decide) (by decide)
  exact ⟨h.1.1.trans (by rfl), h.2⟩

/-! ### PR enrichment engine (`pullrequests.py`, `fetch_pr_metrics`,
`fetch_pr_files`, `collect_user_prs`)

`PullRequestInfo` is restricted to the fields the enrichment batch reads or
writes.  The per-attempt outcome of `await fetch_pr_files(...)` inside
`fetch_pr_metrics` is abstracted as a function from the attempt index
(raising = `err`), and the `cache.get` probe deciding cached-vs-success
accounting as a boolean per PR.  `asyncio.gather` over the per-PR
coroutines is modelled as a fold in submission order (the single-threaded
event loop interleaves only at await points; the per-PR statistics updates
commute, so submission order is a faithful serialization). -/

/-- Fields of `PullRequestInfo` (models.py) used by the enrichment batch. -/
structure PullRequestInfo where
  number : ℕ
  repository : String
  additions : Option ℕ
  deletions : Option ℕ
  changed_files : Option ℕ
deriving DecidableEq

/-- Embedding of `CollectionStats` (pullrequests.py lines 24-44). -/
structure CollectionStats where
  total_prs : ℕ := 0
  file_fetch_success : ℕ := 0
  file_fetch_failed : ℕ := 0
  file_fetch_cached : ℕ := 0
  failed_prs : List String := []
deriving DecidableEq

/-- Outcome of one awaited `fetch_pr_files` call inside `fetch_pr_metrics`:
the `(file_names, additions, deletions, changed_files)` tuple, or a raised
exception. -/
inductive FetchOutcome where
  | ok (file_names : List String) (additions deletions changed_files : ℕ)
  | err (e : PyError)
deriving DecidableEq

/-- Embedding of `pr.repository.split("/", 1)` yielding two parts: `some`
exactly when the string contains a `/` separator. -/
def splitRepo (s : String) : Option (String × String) :=
  if s.toList.contains '/' then
    some (⟨s.toList.takeWhile fun c => c != '/'⟩,
          ⟨(s.toList.dropWhile fun c => c != '/').tail⟩)
  else none

/-- Embedding of the retry loop of `fetch_pr_metrics` (pullrequests.py
lines 362-422); `attempts` is the remaining portion of
`range(max_retries + 1)`.  The third component of the result counts the
fetch calls actually issued.  A `none` split returns with no effect; a
fatal error or the last attempt records the failure; a transient error
recurses to the next attempt after the backoff sleep. -/
def fetch_pr_metrics_go (fetch : ℕ → FetchOutcome) (isCached : Bool) (maxRetries : ℕ)
    (pr : PullRequestInfo) (stats : CollectionStats) :
    List ℕ → PullRequestInfo × CollectionStats × ℕ
  | [] => (pr, stats, 0)
  | attempt :: restAttempts =>
    match splitRepo pr.repository with
    | none => (pr, stats, 0)
    | some _ =>
      match fetch attempt with
      | .ok _ a d cf =>
        ({ pr with additions := some a, deletions := some d, changed_files := some cf },
         if isCached then { stats with file_fetch_cached := stats.file_fetch_cached + 1 }
         else { stats with file_fetch_success := stats.file_fetch_success + 1 },
         1)
      | .err e =>
        if categorize_error e = "fatal" ∨ attempt = maxRetries then
          (pr,
           { stats with
              file_fetch_failed := stats.file_fetch_failed + 1
              failed_prs := stats.failed_prs ++
                [pr.repository ++ "#" ++ toString pr.number] },
           1)
        else
          let r := fetch_pr_metrics_go fetch isCached maxRetries pr stats restAttempts
          (r.1, r.2.1, r.2.2 + 1)

/-- One `fetch_pr_metrics(pr)` task: `max_retries = 3`, attempts
`range(4) = [0, 1, 2, 3]`. -/
def fetch_pr_metrics (fetch : ℕ → FetchOutcome) (isCached : Bool)
    (pr : PullRequestInfo) (stats : CollectionStats) :
    PullRequestInfo × CollectionStats × ℕ :=
  fetch_pr_metrics_go fetch isCached 3 pr stats [0, 1, 2, 3]

/-- The enrichment batch over the PR list, threading the shared
`CollectionStats`; also returns the per-PR fetch-call counts. -/
def enrich_prs_go (fetchFor : PullRequestInfo → ℕ → FetchOutcome)
    (cachedFor : PullRequestInfo → Bool) :
    List PullRequestInfo → CollectionStats →
      List PullRequestInfo × CollectionStats × List ℕ
  | [], stats => ([], stats, [])
  | pr :: rest, stats =>
    let r := fetch_pr_metrics (fetchFor pr) (cachedFor pr) pr stats
    let rr := enrich_prs_go fetchFor cachedFor rest r.2.1
    (r.1 :: rr.1, rr.2.1, r.2.2 :: rr.2.2)

/-- The enrichment phase of `collect_user_prs` (pullrequests.py lines
347-425): fresh statistics with `total_prs = len(pull_requests)`, then the
batch. -/
def enrich_prs (fetchFor : PullRequestInfo → ℕ → FetchOutcome)
    (cachedFor : PullRequestInfo → Bool) (prs : List PullRequestInfo) :
    List PullRequestInfo × CollectionStats × List ℕ :=
  enrich_prs_go fetchFor cachedFor prs { total_prs := prs.length }

/-- Outcome of the initial user search inside `collect_user_prs`: the
parsed PR records, or a raised exception. -/
inductive SearchOutcome where
  | ok (prs : List PullRequestInfo)
  | raised (e : PyError)

/-- Embedding of `collect_user_prs` (pullrequests.py lines 217-497)
restricted to the enrichment pipeline: a successful search enriches the
parsed PRs and returns them; the exception handlers map a 404 or 422 from
the search to an empty result, re-raise a 403, re-raise any other HTTP
status, and re-raise any other exception. -/
def collect_user_prs (searchResult : SearchOutcome)
    (fetchFor : PullRequestInfo → ℕ → FetchOutcome)
    (cachedFor : PullRequestInfo → Bool) :
    Except PyError (List PullRequestInfo) :=
  match searchResult with
  | .ok prs => .ok (enrich_prs fetchFor cachedFor prs).1
  | .raised e =>
    match e with
    | .httpStatus code =>
      if code = 404 then .ok []
      else if code = 422 then .ok []
      else if code = 403 then .error (.httpStatus code)
      else .error (.httpStatus code)
    | e' => .error e'

/-- A PR with its enrichment fields populated. -/
def enrichWith (a d cf : ℕ) (pr : PullRequestInfo) : PullRequestInfo :=
  { pr with additions := some a, deletions := some d, changed_files := some cf }

/-- A task whose first fetch succeeds populates the PR, bumps the
cached-or-success counter, and issues exactly one fetch call. -/
theorem fetch_pr_metrics_ok (fetch : ℕ → FetchOutcome) (isCached : Bool)
    (pr : PullRequestInfo) (stats : CollectionStats)
    (names : List String) (a d cf : ℕ)
    (hsplit : (splitRepo pr.repository).isSome)
    (hfetch : fetch 0 = .ok names a d cf) :
    fetch_pr_metrics fetch isCached pr stats =
      (enrichWith a d cf pr,
       (if isCached then { stats with file_fetch_cached := stats.file_fetch_cached + 1 }
        else { stats with file_fetch_success := stats.file_fetch_success + 1 }),
       1) := by
  obtain ⟨x, hx⟩ := Option.isSome_iff_exists.mp hsplit
  simp only [fetch_pr_metrics, fetch_pr_metrics_go, hx, hfetch, enrichWith]

/-- A task whose first fetch raises a fatal error records the failure
immediately: no population, `file_fetch_failed + 1`, the `repo#number`
identifier appended, and exactly one fetch call (no retries). -/
theorem fetch_pr_metrics_fatal (fetch : ℕ → FetchOutcome) (isCached : Bool)
    (pr : PullRequestInfo) (stats : CollectionStats) (e : PyError)
    (hsplit : (splitRepo pr.repository).isSome)
    (hfetch : fetch 0 = .err e)
    (hfatal : categorize_error e = "fatal") :
    fetch_pr_metrics fetch isCached pr stats =
      (pr,
       { stats with
          file_fetch_failed := stats.file_fetch_failed + 1
          failed_prs := stats.failed_prs ++
            [pr.repository ++ "#" ++ toString pr.number] },
       1) := by
  obtain ⟨x, hx⟩ := Option.isSome_iff_exists.mp hsplit
  simp only [fetch_pr_metrics, fetch_pr_metrics_go, hx, hfetch]
  rw [if_pos (Or.inl hfatal)]

/-- A batch segment in which every PR splits and succeeds on its first
fetch maps each PR to its populated form, makes one fetch call per PR, and
leaves `file_fetch_failed`, `failed_prs` and `total_prs` unchanged. -/
theorem enrich_prs_go_ok (fetchFor : PullRequestInfo → ℕ → FetchOutcome)
    (cachedFor : PullRequestInfo → Bool)
    (names : PullRequestInfo → List String) (a d cf : PullRequestInfo → ℕ)
    (l : List PullRequestInfo) :
    ∀ stats : CollectionStats,
      (∀ pr ∈ l, (splitRepo pr.repository).isSome) →
      (∀ pr ∈ l, fetchFor pr 0 = .ok (names pr) (a pr) (d pr) (cf pr)) →
      ∃ stats' : CollectionStats,
        enrich_prs_go fetchFor cachedFor l stats =
          (l.map fun pr => enrichWith (a pr) (d pr) (cf pr) pr, stats',
            l.map fun _ => 1) ∧
        stats'.file_fetch_failed = stats.file_fetch_failed ∧
        stats'.failed_prs = stats.failed_prs ∧
        stats'.total_prs = stats.total_prs := by
  induction l with
  | nil => intro stats _ _; exact ⟨stats, rfl, rfl, rfl, rfl⟩
  | cons pr l ih =>
    intro stats hs hf
    have hpr := fetch_pr_metrics_ok (fetchFor pr) (cachedFor pr) pr stats (names pr)
      (a pr) (d pr) (cf pr) (hs pr (List.mem_cons_self pr l))
      (hf pr (List.mem_cons_self pr l))
    obtain ⟨stats', hgo, h2, h3, h4⟩ := ih
      (if cachedFor pr then { stats with file_fetch_cached := stats.file_fetch_cached + 1 }
       else { stats with file_fetch_success := stats.file_fetch_success + 1 })
      (fun pr' h => hs pr' (List.mem_cons_of_mem pr h))
      (fun pr' h => hf pr' (List.mem_cons_of_mem pr h))
    have hproj :
        CollectionStats.file_fetch_failed
          (if cachedFor pr then
            { stats with file_fetch_cached := stats.file_fetch_cached + 1 }
          else { stats with file_fetch_success := stats.file_fetch_success + 1 })
            = stats.file_fetch_failed ∧
        CollectionStats.failed_prs
          (if cachedFor pr then
            { stats with file_fetch_cached := stats.file_fetch_cached + 1 }
          else { stats with file_fetch_success := stats.file_fetch_success + 1 })
            = stats.failed_prs ∧
        CollectionStats.total_prs
          (if cachedFor pr then
            { stats with file_fetch_cached := stats.file_fetch_cached + 1 }
          else { stats with file_fetch_success := stats.file_fetch_success + 1 })
            = stats.total_prs := by
      cases cachedFor pr <;> exact ⟨rfl, rfl, rfl⟩
    refine ⟨stats', ?_, ?_, ?_, ?_⟩
    · simp only [enrich_prs_go, hpr, List.map_cons]
      rw [hgo]
    · rw [h2, hproj.1]
    · rw [h3, hproj.2.1]
    · rw [h4, hproj.2.2]

/-- The batch distributes over list append, threading the statistics. -/
theorem enrich_prs_go_append (fetchFor : PullRequestInfo → ℕ → FetchOutcome)
    (cachedFor : PullRequestInfo → Bool) (l1 l2 : List PullRequestInfo) :
    ∀ stats : CollectionStats,
      enrich_prs_go fetchFor cachedFor (l1 ++ l2) stats =
        ((enrich_prs_go fetchFor cachedFor l1 stats).1 ++
          (enrich_prs_go fetchFor cachedFor l2
            (enrich_prs_go fetchFor cachedFor l1 stats).2.1).1,
         (enrich_prs_go fetchFor cachedFor l2
            (enrich_prs_go fetchFor cachedFor l1 stats).2.1).2.1,
         (enrich_prs_go fetchFor cachedFor l1 stats).2.2 ++
          (enrich_prs_go fetchFor cachedFor l2
            (enrich_prs_go fetchFor cachedFor l1 stats).2.1).2.2) := by
  induction l1 with
  | nil => intro stats; rfl
  | cons pr l1 ih =>
    intro stats
    simp only [List.cons_append, enrich_prs_go, List.append_eq, ih]

/-- C2: if enrichment of exactly one PR (`prF`) in the batch always raises
a fatal error while every other PR succeeds on its first fetch,
`collect_user_prs` still returns the full PR list with the other PRs'
additions/deletions/changed_files populated; the failing PR is counted once
in `file_fetch_failed` with a single fetch call (no retries — every PR gets
exactly one call), and its `repo#number` identifier is the sole entry of
`failed_prs`. -/
theorem collect_user_prs_partial_failure
    (fetchFor : PullRequestInfo → ℕ → FetchOutcome) (cachedFor : PullRequestInfo → Bool)
    (pre post : List PullRequestInfo) (prF : PullRequestInfo)
    (names : PullRequestInfo → List String) (a d cf : PullRequestInfo → ℕ) (e : PyError)
    (hok : ∀ pr ∈ pre ++ post, fetchFor pr 0 = .ok (names pr) (a pr) (d pr) (cf pr))
    (hsplit : ∀ pr ∈ pre ++ post, (splitRepo pr.repository).isSome)
    (hFfetch : ∀ att, fetchFor prF att = .err e)
    (hfatal : categorize_error e = "fatal")
    (hFsplit : (splitRepo prF.repository).isSome) :
    collect_user_prs (.ok (pre ++ prF :: post)) fetchFor cachedFor =
      .ok ((pre.map fun pr => enrichWith (a pr) (d pr) (cf pr) pr) ++
        prF :: (post.map fun pr => enrichWith (a pr) (d pr) (cf pr) pr)) ∧
    (enrich_prs fetchFor cachedFor (pre ++ prF :: post)).2.1.file_fetch_failed = 1 ∧
    (enrich_prs fetchFor cachedFor (pre ++ prF :: post)).2.1.failed_prs =
      [prF.repository ++ "#" ++ toString prF.number] ∧
    (enrich_prs fetchFor cachedFor (pre ++ prF :: post)).2.2 =
      (pre ++ prF :: post).map fun _ => 1 := by
  obtain ⟨s1, hgo1, hf1, hp1, ht1⟩ := enrich_prs_go_ok fetchFor cachedFor names a d cf pre
    { total_prs := (pre ++ prF :: post).length }
    (fun pr h => hsplit pr (List.mem_append_left _ h))
    (fun pr h => hok pr (List.mem_append_left _ h))
  have hFstep := fetch_pr_metrics_fatal (fetchFor prF) (cachedFor prF) prF s1 e hFsplit
    (hFfetch 0) hfatal
  obtain ⟨s2, hgo2, hf2, hp2, ht2⟩ := enrich_prs_go_ok fetchFor cachedFor names a d cf post
    { s1 with
       file_fetch_failed := s1.file_fetch_failed + 1
       failed_prs := s1.failed_prs ++ [prF.repository ++ "#" ++ toString prF.number] }
    (fun pr h => hsplit pr (List.mem_append_right _ h))
    (fun pr h => hok pr (List.mem_append_right _ h))
  have hmid : enrich_prs_go fetchFor cachedFor (prF :: post) s1 =
      (prF :: (post.map fun pr => enrichWith (a pr) (d pr) (cf pr) pr), s2,
        1 :: (post.map fun _ => 1)) := by
    simp only [enrich_prs_go, hFstep]
    rw [hgo2]
  have hall : enrich_prs_go fetchFor cachedFor (pre ++ prF :: post)
      { total_prs := (pre ++ prF :: post).length } =
      ((pre.map fun pr => enrichWith (a pr) (d pr) (cf pr) pr) ++
        (prF :: (post.map fun pr => enrichWith (a pr) (d pr) (cf pr) pr)), s2,
       (pre.map fun _ => 1) ++ (1 :: (post.map fun _ => 1))) := by
    rw [enrich_prs_go_append fetchFor cachedFor pre (prF :: post)
      { total_prs := (pre ++ prF :: post).length }, hgo1, hmid]
  have hs1ff : s1.file_fetch_failed = 0 := hf1
  have hs1fp : s1.failed_prs = [] := hp1
  have hs2ff : s2.file_fetch_failed = s1.file_fetch_failed + 1 := hf2
  have hs2fp : s2.failed_prs =
      s1.failed_prs ++ [prF.repository ++ "#" ++ toString prF.number] := hp2
  refine ⟨?_, ?_, ?_, ?_⟩
  · simp only [collect_user_prs, enrich_prs]
    rw [hall]
  · simp only [enrich_prs]
    rw [hall]
    simp only
    omega
  · simp only [enrich_prs]
    rw [hall]
    simp only
    rw [hs2fp, hs1fp]
    rfl
  · simp only [enrich_prs]
    rw [hall]
    simp only [List.map_append, List.map_cons]

/-- Concrete PR record for the C2 and C10 witnesses. -/
def prWitness (n : ℕ) : PullRequestInfo := ⟨n, "acme/widget", none, none, none⟩

/-- Concrete per-PR fetch outcomes for the C2 witness: PR number 2 always
raises HTTP 401 (fatal); the others succeed immediately. -/
def fetchForWitness : PullRequestInfo → ℕ → FetchOutcome := fun pr _ =>
  if pr.number = 2 then .err (.httpStatus 401) else .ok [] 5 3 2

/-- Witness for C2: of three PRs, the middle one always fails fatally; the
other two come back populated, the stats count one failure with one fetch
call per PR, and `failed_prs` holds exactly the failing identifier. -/
theorem collect_user_prs_partial_failure_witness :
    collect_user_prs (.ok [prWitness 1, prWitness 2, prWitness 3])
        fetchForWitness (fun _ => false) =
      .ok [⟨1, "acme/widget", some 5, some 3, some 2⟩, prWitness 2,
        ⟨3, "acme/widget", some 5, some 3, some 2⟩] ∧
    (enrich_prs fetchForWitness (fun _ => false)
      [prWitness 1, prWitness 2, prWitness 3]).2.1.file_fetch_failed = 1 ∧
    (enrich_prs fetchForWitness (fun _ => false)
      [prWitness 1, prWitness 2, prWitness 3]).2.1.failed_prs = ["acme/widget#2"] ∧
    (enrich_prs fetchForWitness (fun _ => false)
      [prWitness 1, prWitness 2, prWitness 3]).2.2 = [1, 1, 1] := by
  have h := collect_user_prs_partial_failure fetchForWitness (fun _ => false)
    [prWitness 1] [prWitness 3] (prWitness 2) (fun _ => []) (fun _ => 5) (fun _ => 3)
    (fun _ => 2) (.httpStatus 401)
    (by intro pr hpr; fin_cases hpr <;> rfl)
    (by intro pr hpr; fin_cases hpr <;> decide)
    (fun _ => rfl) (by decide) (by decide)
  exact ⟨h.1.trans (by rfl), h.2.1, h.2.2.1.trans (by decide), h.2.2.2.trans (by rfl)⟩

/-- C7: a 404 or 422 raised by the initial user search makes
`collect_user_prs` return the empty list; a 403 or any other HTTP status
error from the search is re-raised to the caller. -/
theorem collect_user_prs_search_errors
    (fetchFor : PullRequestInfo → ℕ → FetchOutcome) (cachedFor : PullRequestInfo → Bool) :
    collect_user_prs (.raised (.httpStatus 404)) fetchFor cachedFor = .ok [] ∧
    collect_user_prs (.raised (.httpStatus 422)) fetchFor cachedFor = .ok [] ∧
    collect_user_prs (.raised (.httpStatus 403)) fetchFor cachedFor =
      .error (.httpStatus 403) ∧
    (∀ code : ℕ, code ≠ 404 → code ≠ 422 →
      collect_user_prs (.raised (.httpStatus code)) fetchFor cachedFor =
        .error (.httpStatus code)) := by
  refine ⟨rfl, rfl, rfl, ?_⟩
  intro code h404 h422
  simp only [collect_user_prs, if_neg h404, if_neg h422]
  split <;> rfl

/-- Witness for C7: 404 yields the empty list, 500 is re-raised. -/
theorem collect_user_prs_search_errors_witness :
    collect_user_prs (.raised (.httpStatus 404))
        (fun _ _ => .err .other) (fun _ => false) = .ok [] ∧
    collect_user_prs (.raised (.httpStatus 500))
        (fun _ _ => .err .other) (fun _ => false) = .error (.httpStatus 500) := by
  have h := collect_user_prs_search_errors (fun _ _ => .err .other) (fun _ => false)
  exact ⟨h.1, h.2.2.2 500 (by decide) (by decide)⟩

set_option linter.unnecessarySimpa false in
/-- C10: a PR whose repository string has no `/` separator is skipped with
no effect at all: no fetch call is attempted, the PR (hence its
additions/deletions/changed_files, still `none` whenever they were) is
returned unchanged, the statistics are untouched — and consequently, in a
batch holding such a PR, the three fetch counters sum to strictly less than
`total_prs`. -/
theorem fetch_pr_metrics_invalid_repo_skip
    (fetch : ℕ → FetchOutcome) (isCached : Bool) (pr : PullRequestInfo)
    (stats : CollectionStats)
    (fetchFor : PullRequestInfo → ℕ → FetchOutcome) (cachedFor : PullRequestInfo → Bool)
    (h : pr.repository.toList.contains '/' = false) :
    fetch_pr_metrics fetch isCached pr stats = (pr, stats, 0) ∧
    (fetch_pr_metrics fetch isCached pr stats).1.additions = pr.additions ∧
    (fetch_pr_metrics fetch isCached pr stats).1.deletions = pr.deletions ∧
    (fetch_pr_metrics fetch isCached pr stats).1.changed_files = pr.changed_files ∧
    (enrich_prs fetchFor cachedFor [pr]).2.1.file_fetch_success +
      (enrich_prs fetchFor cachedFor [pr]).2.1.file_fetch_cached +
      (enrich_prs fetchFor cachedFor [pr]).2.1.file_fetch_failed <
      (enrich_prs fetchFor cachedFor [pr]).2.1.total_prs := by
  have hsplit : splitRepo pr.repository = none := by
    simp only [splitRepo, h]
    simpa using h
  have hm : fetch_pr_metrics fetch isCached pr stats = (pr, stats, 0) := by
    simp only [fetch_pr_metrics, fetch_pr_metrics_go, hsplit]
  have hm' : fetch_pr_metrics (fetchFor pr) (cachedFor pr) pr
      { total_prs := ([pr] : List PullRequestInfo).length } =
      (pr, { total_prs := ([pr] : List PullRequestInfo).length }, 0) := by
    simp only [fetch_pr_metrics, fetch_pr_metrics_go, hsplit]
  refine ⟨hm, by rw [hm], by rw [hm], by rw [hm], ?_⟩
  simp only [enrich_prs, enrich_prs_go, hm']
  simp

/-- Witness for C10: a PR with repository `"noslash"` is skipped untouched
with zero fetch calls, and a one-PR batch of it has counter sum 0 below
`total_prs = 1`. -/
theorem fetch_pr_metrics_invalid_repo_skip_witness :
    fetch_pr_metrics (fun _ => FetchOutcome.err .other) false
        ⟨1, "noslash", none, none, none⟩ {} =
      (⟨1, "noslash", none, none, none⟩, {}, 0) ∧
    (enrich_prs (fun _ _ => FetchOutcome.err .other) (fun _ => false)
        [⟨1, "noslash", none, none, none⟩]).2.1.file_fetch_success +
      (enrich_prs (fun _ _ => FetchOutcome.err .other) (fun _ => false)
        [⟨1, "noslash", none, none, none⟩]).2.1.file_fetch_cached +
      (enrich_prs (fun _ _ => FetchOutcome.err .other) (fun _ => false)
        [⟨1, "noslash", none, none, none⟩]).2.1.file_fetch_failed <
      (enrich_prs (fun _ _ => FetchOutcome.err .other) (fun _ => false)
        [⟨1, "noslash", none, none, none⟩]).2.1.total_prs := by
  have h := fetch_pr_metrics_invalid_repo_skip (fun _ => FetchOutcome.err .other) false
    ⟨1, "noslash", none, none, none⟩ {} (fun _ _ => FetchOutcome.err .other)
    (fun _ => false) (by decide)
  exact ⟨h.1, h.2.2.2.2⟩

/-! ### PR file-list fetch (`pullrequests.py`, `fetch_pr_files`) -/

/-- Cache key of a PR file-summary entry: `(owner, repo, number)`. -/
abbrev PrKey := String × String × ℕ

/-- A cached PR file-summary value: the four-element tuple, or data of the
wrong shape (the source type-checks whatever the cache returns). -/
inductive PrCacheVal where
  | tup (file_names : List String) (additions deletions changed_files : ℤ)
  | invalid
deriving DecidableEq

/-- One per-file record of the PR files endpoint; GitHub has been observed
to return negative diff stats, and the filename key may be missing. -/
structure FileData where
  filename : Option String
  additions : ℤ
  deletions : ℤ
deriving DecidableEq

/-- Outcome of `client.get_pr_files`: the file records, or a raised
exception. -/
inductive PrFilesFetch where
  | ok (files : List FileData)
  | err (e : PyError)
deriving DecidableEq

/-- Running total of per-file additions, each clamped to `max 0`. -/
def totalAdditions (files : List FileData) : ℤ :=
  files.foldl (fun acc f => acc + max 0 f.additions) 0

/-- Running total of per-file deletions, each clamped to `max 0`. -/
def totalDeletions (files : List FileData) : ℤ :=
  files.foldl (fun acc f => acc + max 0 f.deletions) 0

/-- Embedding of `fetch_pr_files` (pullrequests.py lines 87-203): a valid
non-negative cached tuple is returned as is; otherwise the fetch runs —
on success the aggregated tuple is computed and written to the cache, on a
404, any other HTTP status error, or any unexpected exception the zeroed
tuple is returned (the three except arms differ only in logging).  The TTL
argument of the source only parameterizes the cache write and is not
modelled by the association-list cache. -/
def fetch_pr_files (fetchResult : PrFilesFetch) (cache : List (PrKey × PrCacheVal))
    (owner repo : String) (number : ℕ) :
    (List String × ℤ × ℤ × ℤ) × List (PrKey × PrCacheVal) :=
  let key : PrKey := (owner, repo, number)
  let fetchFresh : (List String × ℤ × ℤ × ℤ) × List (PrKey × PrCacheVal) :=
    match fetchResult with
    | .ok files =>
      let file_names := files.filterMap fun f => f.filename
      let total_additions := totalAdditions files
      let total_deletions := totalDeletions files
      let changed_files : ℤ := file_names.length
      ((file_names, total_additions, total_deletions, changed_files),
       (key, .tup file_names total_additions total_deletions changed_files) :: cache)
    | .err e =>
      match e with
      | .httpStatus code =>
        if code = 404 then (([], 0, 0, 0), cache)
        else (([], 0, 0, 0), cache)
      | _ => (([], 0, 0, 0), cache)
  match cacheLookup cache key with
  | some (.tup ns a d cf) =>
    if a < 0 ∨ d < 0 ∨ cf < 0 then fetchFresh
    else ((ns, a, d, cf), cache)
  | some .invalid => fetchFresh
  | none => fetchFresh

/-- C8: whenever the underlying file-listing fetch runs and raises — a
404, any other HTTP status error, or any unexpected exception —
`fetch_pr_files` propagates nothing: it returns the zeroed tuple
`([], 0, 0, 0)` and leaves the cache unchanged (no cache write occurs).
The hypothesis `hstale` states exactly when the fetch runs at all: the
cache holds no valid non-negative tuple under the key — it is a miss, an
invalid-shape entry, or a negative-valued tuple (the three refetch states
of pullrequests.py lines 117-144). -/
theorem fetch_pr_files_swallows_errors (cache : List (PrKey × PrCacheVal))
    (owner repo : String) (number : ℕ) (e : PyError)
    (hstale : ∀ (ns : List String) (a d cf : ℤ),
      cacheLookup cache (owner, repo, number) = some (.tup ns a d cf) →
      a < 0 ∨ d < 0 ∨ cf < 0) :
    fetch_pr_files (.err e) cache owner repo number = (([], 0, 0, 0), cache) := by
  cases hc : cacheLookup cache (owner, repo, number) with
  | none =>
    simp only [fetch_pr_files, hc]
    cases e with
    | httpStatus code => by_cases h4 : code = 404 <;> simp [h4]
    | timeout => rfl
    | connectError => rfl
    | other => rfl
  | some v =>
    cases v with
    | invalid =>
      simp only [fetch_pr_files, hc]
      cases e with
      | httpStatus code => by_cases h4 : code = 404 <;> simp [h4]
      | timeout => rfl
      | connectError => rfl
      | other => rfl
    | tup ns a d cf =>
      simp only [fetch_pr_files, hc, if_pos (hstale ns a d cf hc)]
      cases e with
      | httpStatus code => by_cases h4 : code = 404 <;> simp [h4]
      | timeout => rfl
      | connectError => rfl
      | other => rfl

/-- Witness for C8: an HTTP 500 from the fetch on an empty cache, and a
timeout from the refetch forced by a stale negative cached tuple, both
yield the zeroed tuple and leave the cache exactly as it was. -/
theorem fetch_pr_files_swallows_errors_witness :
    fetch_pr_files (.err (.httpStatus 500)) [] "acme" "widget" 7 =
      (([], 0, 0, 0), []) ∧
    fetch_pr_files (.err .timeout)
        [(("acme", "widget", 7), PrCacheVal.tup ["a.py"] (-1) 0 0)]
        "acme" "widget" 7 =
      (([], 0, 0, 0), [(("acme", "widget", 7), PrCacheVal.tup ["a.py"] (-1) 0 0)]) :=
  ⟨fetch_pr_files_swallows_errors [] "acme" "widget" 7 (.httpStatus 500)
      (fun _ _ _ _ h => Option.noConfusion h),
   fetch_pr_files_swallows_errors
      [(("acme", "widget", 7), PrCacheVal.tup ["a.py"] (-1) 0 0)]
      "acme" "widget" 7 .timeout
      (by
        intro ns a d cf h
        simp [cacheLookup] at h
        refine Or.inl ?_
        omega)⟩
